import Mathlib

/-!
Verification of the `set_header` middleware core of `tower-http`
(files `set_header/mod.rs`, `set_header/multiple_response_headers.rs`,
`set_header/multiple_request_headers.rs`).

Shallow embedding conventions:
* `HeaderName` / `HeaderValue` are modelled as `String`.  The `http` crate
  canonicalises header names (case-insensitive, stored lower-case) at
  construction time, so plain string equality on already-constructed names
  is faithful.
* The header container (`http::HeaderMap`, an external collaborator of this
  crate) is modelled from its documented interface: a multi-valued map where
  `insert` has replace-all-with-one semantics, `append` adds a value keeping
  the existing ones, and `contains_key` tests presence.  We represent it as
  an association list of `(name, value)` pairs in insertion order.
* Rust `&mut self` producers (`MakeHeaderValue::make_header_value` takes
  `&mut self`) are modelled by threading an explicit state `S` through every
  producer call: a producer is `S → T → Option HeaderValue × S`.
* The asynchronous `ResponseFuture::poll` is modelled by its resolved
  outcome: the inner future's output is an `Except E (Response B)` and the
  poll body is the pure function applied to it.
-/

/-- Header names (`http::header::HeaderName`), canonicalised. -/
abbrev HeaderName := String

/-- Header values (`http::HeaderValue`), opaque byte strings. -/
abbrev HeaderValue := String

/-- The multi-valued header container (`http::HeaderMap`): association list
of `(name, value)` entries in insertion order. -/
abbrev HeaderMap := List (HeaderName × HeaderValue)

/-- All values stored for `name`, in container order
(`HeaderMap::get_all`). -/
def HeaderMap.getAll (m : HeaderMap) (name : HeaderName) : List HeaderValue :=
  m.filterMap (fun p => if p.1 = name then some p.2 else none)

/-- `HeaderMap::contains_key`. -/
def HeaderMap.containsKey (m : HeaderMap) (name : HeaderName) : Bool :=
  m.any (fun p => p.1 = name)

/-- `HeaderMap::insert`: replace-all-with-one semantics — every existing
value for `name` is removed and the single new value is stored. -/
def HeaderMap.insert (m : HeaderMap) (name : HeaderName) (v : HeaderValue) :
    HeaderMap :=
  m.filter (fun p => p.1 ≠ name) ++ [(name, v)]

/-- `HeaderMap::append`: add a value for `name`, preserving all existing
values of every name. -/
def HeaderMap.append (m : HeaderMap) (name : HeaderName) (v : HeaderValue) :
    HeaderMap :=
  m ++ [(name, v)]

/-- `InsertHeaderMode` from `set_header/mod.rs`. -/
inductive InsertHeaderMode where
  | Override
  | Append
  | IfNotPresent
deriving DecidableEq, Repr

/-- The `Headers` trait of `set_header/mod.rs`: read access to the header
map plus (functionally modelled) mutable access. -/
class Headers (α : Type) where
  headers : α → HeaderMap
  headers_mut : α → HeaderMap → α

/-- `PreparedHeader` from `multiple_response_headers.rs`. -/
structure PreparedHeader where
  name : HeaderName
  value : Option HeaderValue
  mode : InsertHeaderMode
deriving DecidableEq, Repr

/-- `InsertHeaderMode::apply_prepared` (`mod.rs` lines 167–184): apply one
already-computed header value to the target according to the mode. -/
def InsertHeaderMode.apply_prepared [Headers α] (mode : InsertHeaderMode)
    (header_name : HeaderName) (target : α) (header_value : HeaderValue) : α :=
  match mode with
  | .Override =>
      Headers.headers_mut target
        ((Headers.headers target).insert header_name header_value)
  | .IfNotPresent =>
      if (Headers.headers target).containsKey header_name then target
      else
        Headers.headers_mut target
          ((Headers.headers target).insert header_name header_value)
  | .Append =>
      Headers.headers_mut target
        ((Headers.headers target).append header_name header_value)

/-- `http::Request`, restricted to the parts this middleware touches:
its header map plus an opaque body. -/
structure Request (B : Type) where
  headers : HeaderMap
  body : B
deriving DecidableEq, Repr

/-- `http::Response` with the parts `SetResponseHeader` can observe:
status, version and extensions are opaque data untouched by the embedding
of the middleware, `headers` is the mutable container. -/
structure Response (B : Type) where
  status : Nat
  version : Nat
  headers : HeaderMap
  extensions : List Nat
  body : B
deriving DecidableEq, Repr

instance : Headers (Request B) where
  headers := Request.headers
  headers_mut r h := { r with headers := h }

instance : Headers (Response B) where
  headers := Response.headers
  headers_mut r h := { r with headers := h }

/-- The `MakeHeaderValue` trait: `make_header_value(&mut self, &T)`.
The receiver's mutable state is threaded explicitly as `S`. -/
abbrev MakeHeaderValue (S : Type) (T : Type) :=
  S → T → Option HeaderValue × S

/-- `impl<T> MakeHeaderValue<T> for HeaderValue` (`mod.rs` lines 42–46):
always yields a clone of the fixed value, leaving its state untouched. -/
def constHeaderValue (v : HeaderValue) : MakeHeaderValue S T :=
  fun s _ => (some v, s)

/-- `impl<T> MakeHeaderValue<T> for Option<HeaderValue>` (`mod.rs` lines
48–52): always yields a clone of the fixed optional value. -/
def constOptionValue (o : Option HeaderValue) : MakeHeaderValue S T :=
  fun s _ => (o, s)

/-- A `MakeFullHeader` implementor: `make_full_header(&mut self, &T)`,
state threaded as `S`. -/
abbrev MakeFullHeader (S : Type) (T : Type) :=
  S → T → PreparedHeader × S

/-- `ToMakeHeaders` (`multiple_response_headers.rs` lines 117–122): binds a
header name, an insertion mode and a value producer. -/
structure ToMakeHeaders (S : Type) (T : Type) where
  header_name : HeaderName
  mode : InsertHeaderMode
  make : MakeHeaderValue S T

/-- `MakeFullHeader::make_full_header` for `ToMakeHeaders`
(`multiple_response_headers.rs` lines 135–143). -/
def ToMakeHeaders.make_full_header (r : ToMakeHeaders S T) (s : S)
    (message : T) : PreparedHeader × S :=
  let p := r.make s message
  ({ name := r.header_name, value := p.1, mode := r.mode }, p.2)

/-- The rule-chain shapes that implement the `MakeHeaders` trait:
`noop` is `NoopHeaders` (`mod.rs` lines 94–98), `raw` is an arbitrary
user-supplied implementor returning a whole mutation list, and `and` is the
`And { left, right }` combinator (`mod.rs` lines 112–124) whose `left` is a
`MakeFullHeader`.  (`EmptyMakeHeaders f` behaves exactly as `and f noop`.) -/
inductive MakeHeaders (S : Type) (T : Type) : Type where
  | noop : MakeHeaders S T
  | raw (f : S → T → List PreparedHeader × S) : MakeHeaders S T
  | and (left : MakeFullHeader S T) (right : MakeHeaders S T) : MakeHeaders S T

/-- `MakeHeaders::make_headers`: `noop` returns `vec![]`; `raw f` returns
whatever `f` produces; `And::make_headers` (`mod.rs` lines 118–124) first
evaluates the tail (`right`), then pushes the head's (`left`) single
prepared mutation at the end of the vector. -/
def MakeHeaders.make_headers : MakeHeaders S T → S → T → List PreparedHeader × S
  | .noop, s, _ => ([], s)
  | .raw f, s, message => f s message
  | .and l r, s, message =>
      let all := r.make_headers s message
      let h := l all.2 message
      (all.1 ++ [h.1], h.2)

/-- One iteration of the application loop in `ResponseFuture::poll`
(`multiple_response_headers.rs` lines 260–264): a prepared header with an
absent value is skipped entirely, otherwise it is applied via
`apply_prepared`. -/
def applyPreparedHeader [Headers α] (res : α) (header : PreparedHeader) : α :=
  match header.value with
  | some v => header.mode.apply_prepared header.name res v
  | none => res

/-- The full application loop of `ResponseFuture::poll`: prepared headers
are applied in list order. -/
def applyHeaders [Headers α] (hs : List PreparedHeader) (res : α) : α :=
  hs.foldl applyPreparedHeader res

/-- `ResponseFuture::poll` (`multiple_response_headers.rs` lines 255–268),
modelled on the inner future's resolved output: `ready!(this.future.poll(cx)?)`
propagates an inner error unchanged before any header work happens; on
success the rule chain is evaluated once against the pre-mutation response
and the resulting prepared headers are applied in order. -/
def responseFuturePoll (make : MakeHeaders S (Response B)) (s : S)
    (inner : Except E (Response B)) : Except E (Response B) :=
  match inner with
  | .error e => .error e
  | .ok res => .ok (applyHeaders (make.make_headers s res).1 res)

/-- `SetResponseHeader` (`multiple_response_headers.rs` lines 100–104):
an inner service plus a rule chain. -/
structure SetResponseHeader (I : Type) (S : Type) (T : Type) where
  inner : I
  make : MakeHeaders S T

/-- `SetResponseHeader::new` (lines 106–115): wraps the inner service with
the `NoopHeaders` chain. -/
def SetResponseHeader.new (inner : I) : SetResponseHeader I S T :=
  ⟨inner, .noop⟩

/-- `SetResponseHeader::overriding` (lines 160–171): attach an `Override`
rule; the new rule becomes the `left` of an `And` whose `right` is the old
chain. -/
def SetResponseHeader.overriding (svc : SetResponseHeader I S T)
    (header_name : HeaderName) (make : MakeHeaderValue S T) :
    SetResponseHeader I S T :=
  { inner := svc.inner,
    make := .and
      (ToMakeHeaders.make_full_header
        ⟨header_name, InsertHeaderMode.Override, make⟩) svc.make }

/-- `SetResponseHeader::appending` (lines 147–158). -/
def SetResponseHeader.appending (svc : SetResponseHeader I S T)
    (header_name : HeaderName) (make : MakeHeaderValue S T) :
    SetResponseHeader I S T :=
  { inner := svc.inner,
    make := .and
      (ToMakeHeaders.make_full_header
        ⟨header_name, InsertHeaderMode.Append, make⟩) svc.make }

/-- `SetResponseHeader::if_not_present` (lines 173–184). -/
def SetResponseHeader.if_not_present (svc : SetResponseHeader I S T)
    (header_name : HeaderName) (make : MakeHeaderValue S T) :
    SetResponseHeader I S T :=
  { inner := svc.inner,
    make := .and
      (ToMakeHeaders.make_full_header
        ⟨header_name, InsertHeaderMode.IfNotPresent, make⟩) svc.make }

/-- `SetResponseHeader::custom` (lines 186–192): attach any
`MakeFullHeader` implementor as a rule. -/
def SetResponseHeader.custom (svc : SetResponseHeader I S T)
    (make : MakeFullHeader S T) : SetResponseHeader I S T :=
  { inner := svc.inner, make := .and make svc.make }

/-- `Service::call` for `SetResponseHeader` (lines 230–235) composed with
the future's resolution: the inner service runs first, then the response
future applies the header mutations to its successful output. -/
def SetResponseHeader.call {Req E B S : Type}
    (svc : SetResponseHeader (Req → Except E (Response B)) S (Response B))
    (s : S) (req : Req) : Except E (Response B) :=
  responseFuturePoll svc.make s (svc.inner req)

/-- `SetRequestHeader` from `multiple_request_headers.rs` (lines 94–97):
only `inner` and `make` fields — it stores no header name and no mode. -/
structure SetRequestHeader (I : Type) (M : Type) where
  inner : I
  make : M

/-- `SetRequestHeader::new` (`multiple_request_headers.rs` lines 123–128):
the `header_name` and `mode` arguments are discarded, the struct having no
fields for them. -/
def SetRequestHeader.new (inner : I) (_header_name : HeaderName) (make : M)
    (_mode : InsertHeaderMode) : SetRequestHeader I M :=
  ⟨inner, make⟩

/-- `SetRequestHeader::overriding` (lines 104–106). -/
def SetRequestHeader.overriding (inner : I) (header_name : HeaderName)
    (make : M) : SetRequestHeader I M :=
  SetRequestHeader.new inner header_name make InsertHeaderMode.Override

/-- `SetRequestHeader::appending` (lines 112–114). -/
def SetRequestHeader.appending (inner : I) (header_name : HeaderName)
    (make : M) : SetRequestHeader I M :=
  SetRequestHeader.new inner header_name make InsertHeaderMode.Append

/-- `SetRequestHeader::if_not_present` (lines 119–121). -/
def SetRequestHeader.if_not_present (inner : I) (header_name : HeaderName)
    (make : M) : SetRequestHeader I M :=
  SetRequestHeader.new inner header_name make InsertHeaderMode.IfNotPresent

/-- `Service::call` for `SetRequestHeader` (`multiple_request_headers.rs`
lines 165–168): the line `self.mode.apply(&self.header_name, &mut req,
&mut self.make)` is commented out in the source, so the request is handed
to the inner service unchanged. -/
def SetRequestHeader.call {B R M : Type} (svc : SetRequestHeader (Request B → R) M)
    (req : Request B) : R :=
  svc.inner req

/-- Attaching rules one at a time, in order, the way the
`SetResponseHeader` builders do: each attachment wraps the previous chain
as the `right` (tail) of a new `And` whose `left` (head) is the new rule. -/
def attachRules (c0 : MakeHeaders S T) (rs : List (MakeFullHeader S T)) :
    MakeHeaders S T :=
  rs.foldl (fun c r => MakeHeaders.and r c) c0

/-- Specification-side helper: run a list of header rules in list order,
threading producer state, collecting one prepared mutation per rule. -/
def runRulesInOrder : List (MakeFullHeader S T) → S → T →
    List PreparedHeader × S
  | [], s, _ => ([], s)
  | r :: rs, s, t =>
      let h := r s t
      let rest := runRulesInOrder rs h.2 t
      (h.1 :: rest.1, rest.2)

/-- Number of `And` nodes in a chain: one per header rule attached via
`overriding` / `appending` / `if_not_present` / `custom`, each of which
contributes exactly one prepared mutation per evaluation. -/
def MakeHeaders.andCount : MakeHeaders S T → Nat
  | .noop => 0
  | .raw _ => 0
  | .and _ r => r.andCount + 1

/-- Specification-side helper: total number of prepared mutations
contributed by the `raw` leaves of a chain, threading producer state the
same way `make_headers` does. -/
def MakeHeaders.rawContrib : MakeHeaders S T → S → T → Nat × S
  | .noop, s, _ => (0, s)
  | .raw f, s, t => ((f s t).1.length, (f s t).2)
  | .and l r, s, t =>
      let p := r.rawContrib s t
      (p.1, (l p.2 t).2)

/-- A producer (of any output) is stateless when a call leaves its
threaded state unchanged. -/
def preservesState (f : S → T → α × S) : Prop :=
  ∀ s t, (f s t).2 = s

/-- A chain all of whose rules and raw leaves are stateless. -/
def MakeHeaders.Stateless : MakeHeaders S T → Prop
  | .noop => True
  | .raw f => preservesState f
  | .and l r => preservesState l ∧ r.Stateless

/-- Concrete response with no headers, used as evaluation input. -/
def resEmpty : Response Unit := { status := 200, version := 11, headers := [], extensions := [], body := () }

/-- Concrete response with a few headers, used as evaluation input. -/
def resSample : Response Unit :=
  { status := 200, version := 11,
    headers := [("a", "x"), ("b", "y"), ("a", "z")], extensions := [3],
    body := () }

/-- Concrete request with no headers. -/
def reqEmpty : Request Unit := { headers := [], body := () }

/-- The request adapter of claim C1 at a concrete configuration: built via
`SetRequestHeader::overriding` with header name `x-test` and a constant
value producer; the inner service is the identity, so the value of `call`
is exactly the request the inner service received. -/
def svcRequestSample :
    SetRequestHeader (Request Unit → Request Unit)
      (MakeHeaderValue Unit (Request Unit)) :=
  SetRequestHeader.overriding id "x-test" (constHeaderValue "1")

/-- A chain built by the response builders: rule on `a` attached first,
rule on `b` attached second. -/
def chainTwoRules : MakeHeaders Unit (Response Unit) :=
  (((SetResponseHeader.new (fun _ : Unit => (Except.ok resEmpty : Except Unit (Response Unit)))).overriding
      "a" (constHeaderValue "1")).overriding
      "b" (constHeaderValue "2")).make

/-- A two-rule chain of constant (hence stateless) producers over state
`Nat`. -/
def chainConstRules : MakeHeaders Nat (Response Unit) :=
  MakeHeaders.and
    (ToMakeHeaders.make_full_header
      ⟨"a", InsertHeaderMode.Override, constHeaderValue "1"⟩)
    (MakeHeaders.and
      (ToMakeHeaders.make_full_header
        ⟨"b", InsertHeaderMode.IfNotPresent, constOptionValue (some "2")⟩)
      MakeHeaders.noop)

theorem headerMap_getAll_insert_self (m : HeaderMap) (name : HeaderName)
    (v : HeaderValue) : (m.insert name v).getAll name = [v] := by
  induction m with
  | nil => simp [HeaderMap.insert, HeaderMap.getAll]
  | cons p t ih =>
      by_cases h : p.1 = name <;>
        simp_all [HeaderMap.insert, HeaderMap.getAll, List.filter_cons,
          List.filterMap_cons]

theorem headerMap_getAll_insert_other (m : HeaderMap) (name other : HeaderName)
    (v : HeaderValue) (hne : other ≠ name) :
    (m.insert name v).getAll other = m.getAll other := by
  induction m with
  | nil => simp [HeaderMap.insert, HeaderMap.getAll, hne, Ne.symm hne]
  | cons p t ih =>
      by_cases h : p.1 = name <;>
        simp_all [HeaderMap.insert, HeaderMap.getAll, List.filter_cons,
          List.filterMap_cons, Ne.symm hne]

theorem headerMap_getAll_append_self (m : HeaderMap) (name : HeaderName)
    (v : HeaderValue) : (m.append name v).getAll name = m.getAll name ++ [v] := by
  simp [HeaderMap.append, HeaderMap.getAll, List.filterMap_append]

theorem headerMap_getAll_append_other (m : HeaderMap) (name other : HeaderName)
    (v : HeaderValue) (hne : other ≠ name) :
    (m.append name v).getAll other = m.getAll other := by
  simp [HeaderMap.append, HeaderMap.getAll, List.filterMap_append,
    Ne.symm hne]

theorem headerMap_containsKey_iff_getAll_ne_nil (m : HeaderMap)
    (name : HeaderName) : m.containsKey name = true ↔ m.getAll name ≠ [] := by
  induction m with
  | nil => simp [HeaderMap.containsKey, HeaderMap.getAll]
  | cons p t ih =>
      by_cases h : p.1 = name <;>
        simp_all [HeaderMap.containsKey, HeaderMap.getAll,
          List.filterMap_cons, List.any_cons]


theorem apply_prepared_override_response {B : Type} (name : HeaderName)
    (v : HeaderValue) (m : Response B) :
    InsertHeaderMode.Override.apply_prepared name m v =
      { m with headers := m.headers.insert name v } := rfl

theorem apply_prepared_append_response {B : Type} (name : HeaderName)
    (v : HeaderValue) (m : Response B) :
    InsertHeaderMode.Append.apply_prepared name m v =
      { m with headers := m.headers.append name v } := rfl

theorem apply_prepared_ifNotPresent_response {B : Type} (name : HeaderName)
    (v : HeaderValue) (m : Response B) :
    InsertHeaderMode.IfNotPresent.apply_prepared name m v =
      if m.headers.containsKey name then m
      else { m with headers := m.headers.insert name v } := rfl

/-- C3: when the inner handler completes with an error, `ResponseFuture::poll`
returns exactly that error, and the result does not depend on the rule chain
or producer state — no chain evaluation and no header mutation happen on the
error path. -/
theorem c3_error_passthrough {S B E : Type}
    (make make2 : MakeHeaders S (Response B)) (s s2 : S) (e : E) :
    responseFuturePoll make s (Except.error e) = Except.error e ∧
    responseFuturePoll make s (Except.error e) =
      responseFuturePoll make2 s2 (Except.error e) :=
  ⟨rfl, rfl⟩

/-- C4: `And::make_headers` evaluates the tail chain first and appends the
head rule's single prepared mutation at the end of that sequence, and the
empty chain (`NoopHeaders`) always produces the empty sequence. -/
theorem c4_chain_and_empty {S T : Type} (l : MakeFullHeader S T)
    (r : MakeHeaders S T) (s : S) (t : T) :
    ((MakeHeaders.and l r).make_headers s t).1 =
      (r.make_headers s t).1 ++ [(l (r.make_headers s t).2 t).1] ∧
    (MakeHeaders.noop : MakeHeaders S T).make_headers s t = ([], s) :=
  ⟨rfl, rfl⟩

/-- C5: an `IfNotPresent` prepared mutation inserts its value exactly when
the name has zero values at the moment of application, leaves the message
unchanged when the name already has values, and in particular an earlier
`Override` on the same name in the same pass makes it a no-op, leaving
exactly the overridden value. -/
theorem c5_if_not_present_live_check {B : Type} (name : HeaderName)
    (v : HeaderValue) (m : Response B) :
    (m.headers.getAll name = [] →
      (InsertHeaderMode.IfNotPresent.apply_prepared name m v).headers.getAll
          name = [v]) ∧
    (m.headers.getAll name ≠ [] →
      InsertHeaderMode.IfNotPresent.apply_prepared name m v = m) ∧
    (∀ v1 : HeaderValue,
      InsertHeaderMode.IfNotPresent.apply_prepared name
          (InsertHeaderMode.Override.apply_prepared name m v1) v =
        InsertHeaderMode.Override.apply_prepared name m v1) ∧
    (∀ v1 : HeaderValue,
      (InsertHeaderMode.IfNotPresent.apply_prepared name
          (InsertHeaderMode.Override.apply_prepared name m v1) v).headers.getAll
          name = [v1]) := by
  have hover : ∀ v1 : HeaderValue,
      (InsertHeaderMode.Override.apply_prepared name m v1).headers.getAll name
        = [v1] := by
    intro v1
    simp [apply_prepared_override_response, headerMap_getAll_insert_self]
  have hnoop : ∀ v1 : HeaderValue,
      InsertHeaderMode.IfNotPresent.apply_prepared name
          (InsertHeaderMode.Override.apply_prepared name m v1) v =
        InsertHeaderMode.Override.apply_prepared name m v1 := by
    intro v1
    have hc : ((InsertHeaderMode.Override.apply_prepared name
        m v1).headers.containsKey name) = true :=
      (headerMap_containsKey_iff_getAll_ne_nil _ _).mpr (by simp [hover v1])
    simp [apply_prepared_ifNotPresent_response, hc]
  refine ⟨?_, ?_, hnoop, ?_⟩
  · intro h
    have hc : m.headers.containsKey name = false := by
      rcases Bool.eq_false_or_eq_true (m.headers.containsKey name) with ht | hf
      · exact absurd ((headerMap_containsKey_iff_getAll_ne_nil _ _).mp ht)
          (by simp [h])
      · exact hf
    simp [apply_prepared_ifNotPresent_response, hc,
      headerMap_getAll_insert_self]
  · intro h
    have hc : m.headers.containsKey name = true :=
      (headerMap_containsKey_iff_getAll_ne_nil _ _).mpr h
    simp [apply_prepared_ifNotPresent_response, hc]
  · intro v1
    rw [hnoop v1]
    exact hover v1

/-- Witness for C5, at header name `a`, value `v`, on `resEmpty` (zero
values for `a`) and `resSample` (two values for `a`). -/
theorem c5_witness :
    (InsertHeaderMode.IfNotPresent.apply_prepared "a" resEmpty
        "v").headers.getAll "a" = ["v"] ∧
    InsertHeaderMode.IfNotPresent.apply_prepared "a" resSample "v" =
      resSample ∧
    InsertHeaderMode.IfNotPresent.apply_prepared "a"
        (InsertHeaderMode.Override.apply_prepared "a" resSample "w") "v" =
      InsertHeaderMode.Override.apply_prepared "a" resSample "w" ∧
    (InsertHeaderMode.IfNotPresent.apply_prepared "a"
        (InsertHeaderMode.Override.apply_prepared "a" resSample
          "w") "v").headers.getAll "a" = ["w"] := by
  have h1 := c5_if_not_present_live_check "a" "v" resEmpty
  have h2 := c5_if_not_present_live_check "a" "v" resSample
  exact ⟨h1.1 (by decide), h2.2.1 (by decide), h2.2.2.1 "w", h2.2.2.2 "w"⟩

/-- C6: a prepared mutation whose value is absent is skipped entirely — the
loop body of `ResponseFuture::poll` leaves the message exactly as it was,
regardless of the insertion mode and of the entry's position in the list. -/
theorem c6_absent_value_no_mutation {α : Type} [Headers α]
    (h : PreparedHeader) (t : α) (pre post : List PreparedHeader)
    (hval : h.value = none) :
    applyPreparedHeader t h = t ∧
    applyHeaders (pre ++ h :: post) t = applyHeaders (pre ++ post) t := by
  have h1 : ∀ x : α, applyPreparedHeader x h = x := by
    intro x
    simp [applyPreparedHeader, hval]
  refine ⟨h1 t, ?_⟩
  simp [applyHeaders, List.foldl_append, h1]

/-- Witness for C6: an `Append`-mode entry for `a` with absent value,
between two present entries, mutates nothing. -/
theorem c6_witness :
    applyPreparedHeader resSample
        ⟨"a", none, InsertHeaderMode.Append⟩ = resSample ∧
    applyHeaders ([⟨"b", some "1", InsertHeaderMode.Append⟩] ++
        ⟨"a", none, InsertHeaderMode.Append⟩ ::
          [⟨"c", some "2", InsertHeaderMode.Override⟩]) resSample =
      applyHeaders ([⟨"b", some "1", InsertHeaderMode.Append⟩] ++
        [⟨"c", some "2", InsertHeaderMode.Override⟩]) resSample :=
  c6_absent_value_no_mutation ⟨"a", none, InsertHeaderMode.Append⟩ resSample
    [⟨"b", some "1", InsertHeaderMode.Append⟩]
    [⟨"c", some "2", InsertHeaderMode.Override⟩] rfl

/-- C7: applying an `Append` prepared mutation to a name holding `K` values
yields `K + 1` values for that name, the pre-existing values kept in order
and the new value last. -/
theorem c7_append_adds_last {B : Type} (name : HeaderName) (v : HeaderValue)
    (m : Response B) (K : Nat) (hK : (m.headers.getAll name).length = K) :
    (InsertHeaderMode.Append.apply_prepared name m v).headers.getAll name =
      m.headers.getAll name ++ [v] ∧
    ((InsertHeaderMode.Append.apply_prepared name m v).headers.getAll
        name).length = K + 1 := by
  have h1 : (InsertHeaderMode.Append.apply_prepared name m
      v).headers.getAll name = m.headers.getAll name ++ [v] := by
    simp [apply_prepared_append_response, headerMap_getAll_append_self]
  exact ⟨h1, by simp [h1, hK]⟩

/-- Witness for C7: `resSample` holds two values for `a`; appending `v`
yields `[x, z, v]`, three values with `v` last. -/
theorem c7_witness :
    (InsertHeaderMode.Append.apply_prepared "a" resSample
        "v").headers.getAll "a" = resSample.headers.getAll "a" ++ ["v"] ∧
    ((InsertHeaderMode.Append.apply_prepared "a" resSample
        "v").headers.getAll "a").length = 2 + 1 :=
  c7_append_adds_last "a" "v" resSample 2 (by decide)

theorem attachRules_make_headers {S T : Type} (rs : List (MakeFullHeader S T))
    (c0 : MakeHeaders S T) (s : S) (t : T) :
    (attachRules c0 rs).make_headers s t =
      ((c0.make_headers s t).1 ++
          (runRulesInOrder rs (c0.make_headers s t).2 t).1,
        (runRulesInOrder rs (c0.make_headers s t).2 t).2) := by
  induction rs generalizing c0 with
  | nil => simp [attachRules, runRulesInOrder]
  | cons r rs ih =>
      have h := ih (MakeHeaders.and r c0)
      simp only [attachRules, List.foldl_cons] at h ⊢
      rw [h]
      simp [MakeHeaders.make_headers, runRulesInOrder]

/-- C2 counterexample: attaching first an Override rule on `a`, then an
Override rule on `b` (via the builders), produces the mutations in
attachment order `[a, b]`, not in the reverse order `[b, a]` that the claim
asserts. -/
theorem c2_counterexample :
    (chainTwoRules.make_headers () resEmpty).1 =
      [⟨"a", some "1", InsertHeaderMode.Override⟩,
        ⟨"b", some "2", InsertHeaderMode.Override⟩] ∧
    (chainTwoRules.make_headers () resEmpty).1 ≠
      [⟨"b", some "2", InsertHeaderMode.Override⟩,
        ⟨"a", some "1", InsertHeaderMode.Override⟩] := by
  exact ⟨rfl, by decide⟩

/-- C2 (amended): for every chain built by attaching rules one at a time
with the right-associative composition the builders use, the prepared
mutations are produced (and hence applied) in the same order as the rules
were attached — the base chain's mutations first, then one mutation per
attached rule in attachment order. -/
theorem c2_mutation_order_matches_attachment {S T : Type}
    (rs : List (MakeFullHeader S T)) (c0 : MakeHeaders S T) (s : S) (t : T) :
    ((attachRules c0 rs).make_headers s t).1 =
      (c0.make_headers s t).1 ++
        (runRulesInOrder rs (c0.make_headers s t).2 t).1 := by
  rw [attachRules_make_headers]

theorem make_headers_state_agrees_rawContrib {S T : Type}
    (c : MakeHeaders S T) (s : S) (t : T) :
    (c.make_headers s t).2 = (c.rawContrib s t).2 := by
  induction c generalizing s with
  | noop => rfl
  | raw f => rfl
  | and l r ih =>
      simp only [MakeHeaders.make_headers, MakeHeaders.rawContrib]
      rw [ih]

/-- C8: a chain produces exactly one prepared mutation per attached header
rule (one per `And` node, which is what `overriding` / `appending` /
`if_not_present` / `custom` each add) plus whatever its raw
`MakeHeaders` implementors contribute, and a raw implementor contributes
exactly the list it returns, which may have any length including zero. -/
theorem c8_mutation_count {S T : Type} (c : MakeHeaders S T)
    (f : S → T → List PreparedHeader × S) (s : S) (t : T) :
    (c.make_headers s t).1.length = c.andCount + (c.rawContrib s t).1 ∧
    (MakeHeaders.raw f).make_headers s t = f s t := by
  refine ⟨?_, rfl⟩
  induction c generalizing s with
  | noop => rfl
  | raw g => simp [MakeHeaders.make_headers, MakeHeaders.andCount,
      MakeHeaders.rawContrib]
  | and l r ih =>
      simp only [MakeHeaders.make_headers, MakeHeaders.andCount,
        MakeHeaders.rawContrib, List.length_append, List.length_cons,
        List.length_nil]
      have := ih s
      omega

theorem stateless_make_headers_state {S T : Type} (c : MakeHeaders S T)
    (hc : c.Stateless) (s : S) (t : T) :
    (c.make_headers s t).2 = s := by
  revert hc
  induction c generalizing s with
  | noop => intro _; rfl
  | raw f => intro hc; exact hc s t
  | and l r ih =>
      intro hc
      obtain ⟨hl, hr⟩ := hc
      simp only [MakeHeaders.make_headers]
      rw [hl]
      exact ih _ hr

/-- C9: a chain of stateless producers evaluated twice against the same
message yields the same producer state back, identical prepared-mutation
lists, and hence identical container mutations on any target. -/
theorem c9_stateless_repeatable {S T B : Type} (c : MakeHeaders S T)
    (s : S) (t : T) (m : Response B) (hc : c.Stateless) :
    (c.make_headers s t).2 = s ∧
    (c.make_headers (c.make_headers s t).2 t).1 = (c.make_headers s t).1 ∧
    applyHeaders (c.make_headers (c.make_headers s t).2 t).1 m =
      applyHeaders (c.make_headers s t).1 m := by
  have h1 := stateless_make_headers_state c hc s t
  refine ⟨h1, ?_, ?_⟩ <;> rw [h1]

/-- Witness for C9: a two-rule chain of constant producers over state `Nat`,
evaluated from state 5. -/
theorem c9_witness :
    (chainConstRules.make_headers 5 resEmpty).2 = 5 ∧
    (chainConstRules.make_headers
        (chainConstRules.make_headers 5 resEmpty).2 resEmpty).1 =
      (chainConstRules.make_headers 5 resEmpty).1 ∧
    applyHeaders (chainConstRules.make_headers
        (chainConstRules.make_headers 5 resEmpty).2 resEmpty).1 resSample =
      applyHeaders (chainConstRules.make_headers 5 resEmpty).1 resSample :=
  c9_stateless_repeatable chainConstRules 5 resEmpty resSample
    ⟨fun _ _ => rfl, fun _ _ => rfl, trivial⟩

theorem applyPreparedHeader_preserves_rest {B : Type} (t : Response B)
    (h : PreparedHeader) :
    (applyPreparedHeader t h).status = t.status ∧
    (applyPreparedHeader t h).version = t.version ∧
    (applyPreparedHeader t h).extensions = t.extensions ∧
    (applyPreparedHeader t h).body = t.body := by
  cases hv : h.value with
  | none => simp [applyPreparedHeader, hv]
  | some v =>
      cases hm : h.mode <;>
        simp only [applyPreparedHeader, hv, hm,
          apply_prepared_override_response, apply_prepared_append_response,
          apply_prepared_ifNotPresent_response] <;>
      first
        | exact ⟨trivial, trivial, trivial, trivial⟩
        | (split <;> exact ⟨rfl, rfl, rfl, rfl⟩)

theorem applyHeaders_preserves_rest {B : Type} (hs : List PreparedHeader)
    (t : Response B) :
    (applyHeaders hs t).status = t.status ∧
    (applyHeaders hs t).version = t.version ∧
    (applyHeaders hs t).extensions = t.extensions ∧
    (applyHeaders hs t).body = t.body := by
  induction hs generalizing t with
  | nil => exact ⟨rfl, rfl, rfl, rfl⟩
  | cons h hs ih =>
      have h1 := applyPreparedHeader_preserves_rest t h
      have h2 := ih (applyPreparedHeader t h)
      simp only [applyHeaders, List.foldl_cons] at h2 ⊢
      exact ⟨h2.1.trans h1.1, h2.2.1.trans h1.2.1,
        h2.2.2.1.trans h1.2.2.1, h2.2.2.2.trans h1.2.2.2⟩

theorem apply_prepared_getAll_other {B : Type} (mode : InsertHeaderMode)
    (name other : HeaderName) (v : HeaderValue) (t : Response B)
    (hne : other ≠ name) :
    (mode.apply_prepared name t v).headers.getAll other =
      t.headers.getAll other := by
  cases mode with
  | Override =>
      simp [apply_prepared_override_response,
        headerMap_getAll_insert_other _ _ _ _ hne]
  | Append =>
      simp [apply_prepared_append_response,
        headerMap_getAll_append_other _ _ _ _ hne]
  | IfNotPresent =>
      rw [apply_prepared_ifNotPresent_response]
      split
      · rfl
      · simp [headerMap_getAll_insert_other _ _ _ _ hne]

/-- C10: on the success path the response adapter only rewrites the header
map — status, version, extensions and body of the inner response come back
unchanged — and each single prepared mutation leaves the values of every
other header name exactly as they were. -/
theorem c10_success_path_frame {S B E : Type}
    (make : MakeHeaders S (Response B)) (s : S) (res t : Response B)
    (mode : InsertHeaderMode) (name other : HeaderName) (v : HeaderValue)
    (hne : other ≠ name) :
    (responseFuturePoll make s (Except.ok res) : Except E (Response B)) =
      Except.ok (applyHeaders (make.make_headers s res).1 res) ∧
    (applyHeaders (make.make_headers s res).1 res).status = res.status ∧
    (applyHeaders (make.make_headers s res).1 res).version = res.version ∧
    (applyHeaders (make.make_headers s res).1 res).extensions =
      res.extensions ∧
    (applyHeaders (make.make_headers s res).1 res).body = res.body ∧
    (mode.apply_prepared name t v).headers.getAll other =
      t.headers.getAll other := by
  have h := applyHeaders_preserves_rest (make.make_headers s res).1 res
  exact ⟨rfl, h.1, h.2.1, h.2.2.1, h.2.2.2,
    apply_prepared_getAll_other mode name other v t hne⟩

/-- Witness for C10: the two-rule chain on `resEmpty`, and an `Override`
mutation of `a` on `resSample` leaving header `b` untouched. -/
theorem c10_witness :
    (responseFuturePoll chainTwoRules () (Except.ok resEmpty) :
        Except Unit (Response Unit)) =
      Except.ok (applyHeaders
        (chainTwoRules.make_headers () resEmpty).1 resEmpty) ∧
    (applyHeaders (chainTwoRules.make_headers ()
        resEmpty).1 resEmpty).status = resEmpty.status ∧
    (applyHeaders (chainTwoRules.make_headers ()
        resEmpty).1 resEmpty).version = resEmpty.version ∧
    (applyHeaders (chainTwoRules.make_headers ()
        resEmpty).1 resEmpty).extensions = resEmpty.extensions ∧
    (applyHeaders (chainTwoRules.make_headers ()
        resEmpty).1 resEmpty).body = resEmpty.body ∧
    (InsertHeaderMode.Override.apply_prepared "a" resSample
        "v").headers.getAll "b" = resSample.headers.getAll "b" :=
  c10_success_path_frame chainTwoRules () resEmpty resSample
    InsertHeaderMode.Override "a" "b" "v" (by decide)

/-- C1 (code-bug evidence): the request adapter built by
`SetRequestHeader::overriding` with header `x-test` hands the inner service
the request completely unmutated — with the identity inner service, `call`
returns the original request and the `x-test` header is still absent. -/
theorem c1_request_adapter_forwards_unmutated :
    SetRequestHeader.call svcRequestSample reqEmpty = reqEmpty ∧
    (SetRequestHeader.call svcRequestSample
        reqEmpty).headers.getAll "x-test" = [] :=
  ⟨rfl, rfl⟩
